import Mathlib

/-
Verification of the asset-transfer chaincode
(fabric-samples/asset-transfer-basic/chaincode-go/chaincode/smartcontract.go).

The world state is modelled as an association list from string keys to
stored records.  A stored record is either an `Asset` or a `User`
(mirroring the two Go structs that are JSON-marshalled into the store).
Monetary amounts (`float64` in Go) are modelled as exact rationals.

Go slices distinguish `nil` from the empty slice: an `Asset` built with
`Damages: []Damage{}` marshals to `"damages": []`, while one whose
`Damages` field is left unset (as in `UpdateAsset`) marshals to
`"damages": null`.  We keep this distinction by modelling the field as
`Option (List Damage)`: `none` is the nil slice, `some l` a present one.
-/

namespace Chaincode

/-- Damage record: description and cost (Go `Damage`). -/
structure Damage where
  description : String
  cost : ℚ
deriving DecidableEq, Repr

/-- User record (Go `User`): ID, name, last name, email, balance. -/
structure User where
  id : String
  name : String
  lastname : String
  email : String
  money : ℚ
deriving DecidableEq, Repr

/-- Asset record (Go `Asset`). `damages = none` models a nil Go slice
(serialized as JSON `null`), `some l` a present slice. -/
structure Asset where
  id : String
  brand : String
  model : String
  year : Int
  color : String
  ownerID : String
  damages : Option (List Damage)
  appraisedValue : ℚ
deriving DecidableEq, Repr

/-- A record stored in the world state: the bytes of either an asset or
a user JSON document. -/
inductive Entry where
  | asset (a : Asset)
  | user (u : User)
deriving DecidableEq, Repr

/-- The world state: an association list from keys to stored records.
`getState` returns the first binding of a key. -/
abbrev WorldState := List (String × Entry)

/-- Stub `GetState`: point lookup, absence is not an error. -/
def getState : WorldState → String → Option Entry
  | [], _ => none
  | (k', v) :: rest, k => if k = k' then some v else getState rest k

/-- Stub `PutState`: upsert, full-value replace. -/
def putState (k : String) (v : Entry) (st : WorldState) : WorldState :=
  (k, v) :: st.filter (fun p => !(p.1 == k))

/-- Stub `DelState`: removes a key; silently does nothing if absent. -/
def delState (k : String) (st : WorldState) : WorldState :=
  st.filter (fun p => !(p.1 == k))

/-- Go `json.Unmarshal` of stored bytes into an `Asset` struct.  Asset
bytes decode to themselves; user bytes decode field-by-field: only `ID`
is shared, every other `Asset` field gets its Go zero value (and the
absent `damages` key yields a nil slice). -/
def decodeAsset : Entry → Asset
  | .asset a => a
  | .user u =>
      { id := u.id, brand := "", model := "", year := 0, color := "",
        ownerID := "", damages := none, appraisedValue := 0 }

/-- Go `json.Unmarshal` of stored bytes into a `User` struct (dual to
`decodeAsset`: only `ID` is shared with asset bytes). -/
def decodeUser : Entry → User
  | .user u => u
  | .asset a => { id := a.id, name := "", lastname := "", email := "", money := 0 }

/-- `len` of a Go damages slice (nil has length 0). -/
def damagesLen : Option (List Damage) → Nat
  | none => 0
  | some l => l.length

/-- The underlying list of a Go damages slice (nil ranges as empty). -/
def damagesList : Option (List Damage) → List Damage
  | none => []
  | some l => l

/-- Go `append` on a damages slice: appending to nil allocates. -/
def damagesAppend (d : Option (List Damage)) (x : Damage) : Option (List Damage) :=
  match d with
  | none => some [x]
  | some l => some (l ++ [x])

/-- Sum of the costs of a list of damages (the accumulation loops in
`TransferAsset`, `CreateAssetDamage` and `RepairDamages`). -/
def costSum : List Damage → ℚ
  | [] => 0
  | d :: ds => d.cost + costSum ds

/-- Total damage cost of a damages slice. -/
def damagesTotal (d : Option (List Damage)) : ℚ := costSum (damagesList d)

/-- The settlement price `TransferAsset` charges for an asset:
appraised value minus total damage cost (equal to the appraised value
when there are no damages). -/
def settlementPrice (a : Asset) : ℚ := a.appraisedValue - damagesTotal a.damages

section StoreLemmas

theorem getState_putState_self (st : WorldState) (k : String) (v : Entry) :
    getState (putState k v st) k = some v := by
  simp [putState, getState]

theorem getState_filter_ne (st : WorldState) (k k' : String) (h : k' ≠ k) :
    getState (st.filter (fun p => !(p.1 == k))) k' = getState st k' := by
  induction st with
  | nil => rfl
  | cons p rest ih =>
      obtain ⟨k1, v1⟩ := p
      by_cases hk : k1 = k
      · subst hk
        simp only [List.filter_cons, beq_self_eq_true, Bool.not_true, Bool.false_eq_true,
          if_false]
        rw [ih]
        simp [getState, if_neg h]
      · have hb : (!(k1 == k)) = true := by simp [hk]
        simp only [List.filter_cons, hb, if_true]
        by_cases hk' : k' = k1
        · simp [getState, hk']
        · simp only [getState, if_neg hk']
          exact ih

theorem getState_putState_ne (st : WorldState) (k k' : String) (v : Entry) (h : k' ≠ k) :
    getState (putState k v st) k' = getState st k' := by
  simp only [putState, getState, if_neg h]
  exact getState_filter_ne st k k' h

theorem getState_delState_self (st : WorldState) (k : String) :
    getState (delState k st) k = none := by
  induction st with
  | nil => rfl
  | cons p rest ih =>
      obtain ⟨k1, v1⟩ := p
      by_cases hk : k1 = k
      · simp only [delState, List.filter_cons, hk, beq_self_eq_true, Bool.not_true,
          Bool.false_eq_true, if_false]
        exact ih
      · have hb : (!(k1 == k)) = true := by simp [hk]
        simp only [delState, List.filter_cons, hb, if_true]
        simp only [getState, if_neg (fun hh : k = k1 => hk hh.symm)]
        exact ih

theorem getState_delState_ne (st : WorldState) (k k' : String) (h : k' ≠ k) :
    getState (delState k st) k' = getState st k' :=
  getState_filter_ne st k k' h

theorem getState_mem (st : WorldState) (k : String) (v : Entry)
    (h : getState st k = some v) : (k, v) ∈ st := by
  induction st with
  | nil => simp [getState] at h
  | cons p rest ih =>
      obtain ⟨k1, v1⟩ := p
      by_cases hk : k = k1
      · subst hk
        simp only [getState] at h
        rw [if_pos trivial] at h
        injection h with h
        subst h
        exact List.mem_cons_self _ _
      · simp only [getState, if_neg hk] at h
        exact List.mem_cons_of_mem _ (ih h)

theorem all_putState (P : String × Entry → Bool) (st : WorldState) (k : String) (v : Entry)
    (h : st.all P = true) (hv : P (k, v) = true) :
    (putState k v st).all P = true := by
  simp only [putState, List.all_cons, hv, Bool.true_and]
  rw [List.all_eq_true] at h ⊢
  intro p hp
  exact h p (List.mem_of_mem_filter hp)

theorem all_delState (P : String × Entry → Bool) (st : WorldState) (k : String)
    (h : st.all P = true) : (delState k st).all P = true := by
  rw [List.all_eq_true] at h ⊢
  intro p hp
  exact h p (List.mem_of_mem_filter hp)

theorem all_getState (P : String × Entry → Bool) (st : WorldState) (k : String) (v : Entry)
    (hall : st.all P = true) (h : getState st k = some v) : P (k, v) = true := by
  rw [List.all_eq_true] at hall
  exact hall _ (getState_mem st k v h)

end StoreLemmas

/-- `AssetExists`: true when any record is stored at `id`. -/
def assetExists (st : WorldState) (id : String) : Bool :=
  (getState st id).isSome

/-- `ReadAsset`: `NotFound` error if the key is absent, otherwise the
decoded asset. -/
def readAsset (st : WorldState) (id : String) : Except String Asset :=
  match getState st id with
  | none => .error ("the asset " ++ id ++ " does not exist")
  | some e => .ok (decodeAsset e)

/-- `ReadUser`: `NotFound` error if the key is absent, otherwise the
decoded user. -/
def readUser (st : WorldState) (id : String) : Except String User :=
  match getState st id with
  | none => .error ("the user " ++ id ++ " does not exist")
  | some e => .ok (decodeUser e)

/-- The seed users written by `InitLedger`. -/
def seedUsers : List User :=
  [ { id := "user1", name := "Marko", lastname := "Markovic",
      email := "marko.markovic@email.com", money := 10000 },
    { id := "user2", name := "Jovan", lastname := "Jovanovic",
      email := "jovan.jovanovic@email.com", money := 5000 },
    { id := "user3", name := "Lazar", lastname := "Lazarevic",
      email := "lazar.lazarevic@email.com", money := 3750 } ]

/-- The seed assets written by `InitLedger`. -/
def seedAssets : List Asset :=
  [ { id := "asset1", brand := "fiat", model := "500L", year := 2018, color := "black",
      ownerID := "user1", damages := some [], appraisedValue := 7000 },
    { id := "asset2", brand := "audi", model := "A6", year := 2016, color := "blue",
      ownerID := "user2", damages := some [], appraisedValue := 5000 },
    { id := "asset3", brand := "bmw", model := "500L", year := 2017, color := "red",
      ownerID := "user2", damages := some [], appraisedValue := 12000 },
    { id := "asset4", brand := "ford", model := "500L", year := 2013, color := "gray",
      ownerID := "user1", damages := some [], appraisedValue := 7350 },
    { id := "asset5", brand := "toyota", model := "500L", year := 2017, color := "black",
      ownerID := "user1", damages := some [], appraisedValue := 4600 },
    { id := "asset6", brand := "opel", model := "astra", year := 2018, color := "black",
      ownerID := "user3", damages := some [], appraisedValue := 6300 } ]

/-- `InitLedger`: writes the three seed users, then the six seed assets,
each under its own ID key. -/
def initLedger (st : WorldState) : Except String WorldState :=
  .ok ((seedAssets.foldl (fun s a => putState a.id (.asset a) s)
        (seedUsers.foldl (fun s u => putState u.id (.user u) s) st)))

/-- `CreateAsset`: `AlreadyExists` error if the key is taken; otherwise
stores a new asset with an empty (non-nil) damage slice. -/
def createAsset (st : WorldState) (id brand model : String) (year : Int)
    (color owner : String) (appraisedValue : ℚ) : Except String WorldState :=
  if assetExists st id then .error ("the asset " ++ id ++ " already exists")
  else .ok (putState id (.asset
    { id := id, brand := brand, model := model, year := year, color := color,
      ownerID := owner, damages := some [], appraisedValue := appraisedValue }) st)

/-- `UpdateAsset`: `NotFound` if absent; otherwise overwrites the record
with a fresh asset holding only the passed fields — `brand`, `model` and
`year` get zero values and `damages` is left as the nil slice (`none`).
The `size` parameter mirrors the Go signature and is unused. -/
def updateAsset (st : WorldState) (id color : String) (size : Int)
    (owner : String) (appraisedValue : ℚ) : Except String WorldState :=
  if assetExists st id then
    .ok (putState id (.asset
      { id := id, brand := "", model := "", year := 0, color := color,
        ownerID := owner, damages := none, appraisedValue := appraisedValue }) st)
  else .error ("the asset " ++ id ++ " does not exist")

/-- `DeleteAsset`: `NotFound` if absent; otherwise removes the record. -/
def deleteAsset (st : WorldState) (id : String) : Except String WorldState :=
  if assetExists st id then .ok (delState id st)
  else .error ("the asset " ++ id ++ " does not exist")

/-- `ChangeAssetColor`: reads the asset (generic "Car not found" on
absence), mutates only the color and re-persists the record. -/
def changeAssetColor (st : WorldState) (id color : String) : Except String WorldState :=
  match getState st id with
  | none => .error "Car not found"
  | some e =>
      let asset := decodeAsset e
      .ok (putState id (.asset { asset with color := color }) st)

/-- `CreateAssetDamage`: appends the new damage, recomputes the total
cost over the full sequence, deletes the asset when the total strictly
exceeds the appraised value, and otherwise persists the update. -/
def createAssetDamage (st : WorldState) (id description : String) (cost : ℚ) :
    Except String WorldState :=
  match getState st id with
  | none => .error "Car not found"
  | some e =>
      let asset := decodeAsset e
      let damages := damagesAppend asset.damages { description := description, cost := cost }
      let totalCost := damagesTotal damages
      if asset.appraisedValue < totalCost then .ok (delState id st)
      else .ok (putState id (.asset { asset with damages := damages }) st)

/-- Tail of `TransferAsset` after the settlement price is fixed: the
insufficient-funds check and the three writes (previous owner under the
owner record's ID field, new owner under the `newOwner` argument, then
the asset). -/
def transferFinish (st : WorldState) (id newOwner : String) (owner newO : User)
    (asset : Asset) (totalPrice : ℚ) : Except String WorldState :=
  if newO.money < totalPrice then
    .error "Customer doesn't have enough money on his account"
  else
    .ok (putState id (.asset asset)
          (putState newOwner (.user { newO with money := newO.money - totalPrice })
            (putState owner.id (.user { owner with money := owner.money + totalPrice }) st)))

/-- `TransferAsset`: reads the asset, rejects self-transfer, reads both
users, computes the settlement price (full appraised value when there
are no damages, appraised value minus total damage cost when damages are
acknowledged with `withDamage`, error otherwise), then settles. -/
def transferAsset (st : WorldState) (id newOwner : String) (withDamage : Bool) :
    Except String WorldState :=
  match getState st id with
  | none => .error "Car not found"
  | some e =>
      let asset := decodeAsset e
      if asset.ownerID = newOwner then .error "New owner is same as current"
      else
        match getState st asset.ownerID with
        | none => .error "Owner not found"
        | some eo =>
            let owner := decodeUser eo
            match getState st newOwner with
            | none => .error "New owner not found"
            | some en =>
                let newO := decodeUser en
                if damagesLen asset.damages = 0 then
                  transferFinish st id newOwner owner newO
                    { asset with ownerID := newOwner } asset.appraisedValue
                else if withDamage then
                  transferFinish st id newOwner owner newO
                    { asset with ownerID := newOwner }
                    (asset.appraisedValue - damagesTotal asset.damages)
                else .error "Car has unrepaired damages"

/-- `RepairDamages`: reads the asset, its owner and the mechanic, sums
the damage costs, checks the owner's funds, then debits the owner,
credits the repairman, clears the damage slice to empty and persists all
three records (owner, mechanic, asset, in that order). -/
def repairDamages (st : WorldState) (id mechanic : String) : Except String WorldState :=
  match getState st id with
  | none => .error "Car not found"
  | some e =>
      let asset := decodeAsset e
      match getState st asset.ownerID with
      | none => .error "Owner not found"
      | some eo =>
          let owner := decodeUser eo
          match getState st mechanic with
          | none => .error "Repairman not found"
          | some em =>
              let repairman := decodeUser em
              let totalCost := damagesTotal asset.damages
              if owner.money < totalCost then
                .error "Owner doesn't have enough money on his account"
              else
                .ok (putState id (.asset { asset with damages := some [] })
                      (putState mechanic
                        (.user { repairman with money := repairman.money + totalCost })
                        (putState owner.id
                          (.user { owner with money := owner.money - totalCost }) st)))

/-- `GetStateByRange`: the stored pairs whose key lies in the half-open
interval `[startKey, endKey)`; an empty `endKey` means the end of the
keyspace. -/
def rangeScan (startKey endKey : String) (st : WorldState) : List (String × Entry) :=
  st.filter (fun p => decide (startKey ≤ p.1) && (endKey == "" || decide (p.1 < endKey)))

/-- The decode loop of `GetAllAssets` over the scanned pairs. -/
def getAllAssetsLoop : List (String × Entry) → List Asset
  | [] => []
  | p :: rest => decodeAsset p.2 :: getAllAssetsLoop rest

/-- `GetAllAssets`: scans `["asset", "user")` and decodes every record
as an asset. -/
def getAllAssets (st : WorldState) : List Asset :=
  getAllAssetsLoop (rangeScan "asset" "user" st)

/-- The decode-and-filter loop of `FindAssets` over the scanned pairs:
a decoded asset is kept iff (its color matches or the color filter is
empty) and (the owner filter is empty or its owner matches). -/
def findAssetsLoop (color owner : String) : List (String × Entry) → List Asset
  | [] => []
  | p :: rest =>
      let asset := decodeAsset p.2
      if (asset.color == color || color == "") && (owner == "" || asset.ownerID == owner) then
        asset :: findAssetsLoop color owner rest
      else findAssetsLoop color owner rest

/-- `FindAssets`: the same `["asset", "user")` scan as `GetAllAssets`,
filtered by color and owner. -/
def findAssets (st : WorldState) (color owner : String) : List Asset :=
  findAssetsLoop color owner (rangeScan "asset" "user" st)

/-- The state-mutating operations of the contract, with their arguments. -/
inductive Op where
  | opInit
  | opCreate (id brand model : String) (year : Int) (color owner : String) (av : ℚ)
  | opUpdate (id color : String) (size : Int) (owner : String) (av : ℚ)
  | opDelete (id : String)
  | opChangeColor (id color : String)
  | opAddDamage (id description : String) (cost : ℚ)
  | opRepair (id mechanic : String)
  | opTransfer (id newOwner : String) (withDamage : Bool)

/-- Run one operation against a world state. -/
def runOp (st : WorldState) : Op → Except String WorldState
  | .opInit => initLedger st
  | .opCreate id brand model year color owner av => createAsset st id brand model year color owner av
  | .opUpdate id color size owner av => updateAsset st id color size owner av
  | .opDelete id => deleteAsset st id
  | .opChangeColor id color => changeAssetColor st id color
  | .opAddDamage id description cost => createAssetDamage st id description cost
  | .opRepair id mechanic => repairDamages st id mechanic
  | .opTransfer id newOwner withDamage => transferAsset st id newOwner withDamage

/-- The world state after an operation: a failed operation is aborted by
the host transaction and leaves the state unchanged. -/
def applyOp (st : WorldState) (op : Op) : WorldState :=
  match runOp st op with
  | .ok st' => st'
  | .error _ => st

/-- The ledger as seeded by `InitLedger` from an empty store. -/
def seededState : WorldState := applyOp [] .opInit

/-
Fault-injected store: `PutState` may fail at the store boundary.  A
fault oracle marks the keys whose writes fail.  `TransferAsset` and
`RepairDamages` discard the Go return value of their first two
`PutState` calls and propagate only the third, which these variants
mirror exactly.
-/

/-- A `PutState` call whose error result the Go code discards: on a
faulted key nothing is written and no error is seen. -/
def putStateDrop (faults : String → Bool) (k : String) (v : Entry) (st : WorldState) :
    WorldState :=
  if faults k then st else putState k v st

/-- A `PutState` call whose error result the Go code returns. -/
def putStateChecked (faults : String → Bool) (k : String) (v : Entry) (st : WorldState) :
    Except String WorldState :=
  if faults k then .error "failed to put to world state" else .ok (putState k v st)

/-- Tail of `TransferAsset` against the fault-injected store: the
errors of the first two writes are discarded, only the asset write's
error is propagated. -/
def transferFinishF (faults : String → Bool) (st : WorldState) (id newOwner : String)
    (owner newO : User) (asset : Asset) (totalPrice : ℚ) : Except String WorldState :=
  if newO.money < totalPrice then
    .error "Customer doesn't have enough money on his account"
  else
    putStateChecked faults id (.asset asset)
      (putStateDrop faults newOwner (.user { newO with money := newO.money - totalPrice })
        (putStateDrop faults owner.id (.user { owner with money := owner.money + totalPrice }) st))

/-- `TransferAsset` against the fault-injected store. -/
def transferAssetF (faults : String → Bool) (st : WorldState) (id newOwner : String)
    (withDamage : Bool) : Except String WorldState :=
  match getState st id with
  | none => .error "Car not found"
  | some e =>
      let asset := decodeAsset e
      if asset.ownerID = newOwner then .error "New owner is same as current"
      else
        match getState st asset.ownerID with
        | none => .error "Owner not found"
        | some eo =>
            let owner := decodeUser eo
            match getState st newOwner with
            | none => .error "New owner not found"
            | some en =>
                let newO := decodeUser en
                if damagesLen asset.damages = 0 then
                  transferFinishF faults st id newOwner owner newO
                    { asset with ownerID := newOwner } asset.appraisedValue
                else if withDamage then
                  transferFinishF faults st id newOwner owner newO
                    { asset with ownerID := newOwner }
                    (asset.appraisedValue - damagesTotal asset.damages)
                else .error "Car has unrepaired damages"

/-- `RepairDamages` against the fault-injected store: the owner and
mechanic writes drop their errors, only the asset write's error is
propagated. -/
def repairDamagesF (faults : String → Bool) (st : WorldState) (id mechanic : String) :
    Except String WorldState :=
  match getState st id with
  | none => .error "Car not found"
  | some e =>
      let asset := decodeAsset e
      match getState st asset.ownerID with
      | none => .error "Owner not found"
      | some eo =>
          let owner := decodeUser eo
          match getState st mechanic with
          | none => .error "Repairman not found"
          | some em =>
              let repairman := decodeUser em
              let totalCost := damagesTotal asset.damages
              if owner.money < totalCost then
                .error "Owner doesn't have enough money on his account"
              else
                putStateChecked faults id (.asset { asset with damages := some [] })
                  (putStateDrop faults mechanic
                    (.user { repairman with money := repairman.money + totalCost })
                    (putStateDrop faults owner.id
                      (.user { owner with money := owner.money - totalCost }) st))

/-
State predicates used by the invariant claims.
-/

/-- Every stored user record has a non-negative balance. -/
def entryBalanceNonneg : Entry → Bool
  | .user u => decide (0 ≤ u.money)
  | .asset _ => true

/-- All user balances stored in the world state are non-negative. -/
def balancesNonneg (st : WorldState) : Bool :=
  st.all (fun p => entryBalanceNonneg p.2)

/-- Every damage cost recorded on a stored asset is non-negative. -/
def entryCostsNonneg : Entry → Bool
  | .asset a => (damagesList a.damages).all (fun d => decide (0 ≤ d.cost))
  | .user _ => true

/-- All damage costs stored in the world state are non-negative. -/
def costsNonneg (st : WorldState) : Bool :=
  st.all (fun p => entryCostsNonneg p.2)

/-- A stored asset's total damage cost does not exceed its appraised
value. -/
def entryBounded : Entry → Bool
  | .asset a => decide (damagesTotal a.damages ≤ a.appraisedValue)
  | .user _ => true

/-- Every stored asset's total damage cost is at most its appraised
value. -/
def assetsBounded (st : WorldState) : Bool :=
  st.all (fun p => entryBounded p.2)

/-- A stored asset's damages field is a present (non-nil) sequence. -/
def damagesPresent : Entry → Bool
  | .asset a => a.damages.isSome
  | .user _ => true

/-- The restriction named by the reachability claim: damage-cost
arguments are non-negative. -/
def opCostNN : Op → Prop
  | .opAddDamage _ _ c => 0 ≤ c
  | _ => True

/-- Operation arguments respecting the data model: damage costs and
appraised values are non-negative. -/
def opValid : Op → Prop
  | .opAddDamage _ _ c => 0 ≤ c
  | .opCreate _ _ _ _ _ _ av => 0 ≤ av
  | .opUpdate _ _ _ _ av => 0 ≤ av
  | _ => True

/-- World states reachable from the seeded initial state through
operations whose damage-cost arguments are non-negative (the
reachability notion of the claim). -/
inductive ReachableNN : WorldState → Prop
  | seed : ReachableNN seededState
  | step (st : WorldState) (op : Op) :
      ReachableNN st → opCostNN op → ReachableNN (applyOp st op)

/-- World states reachable from the seeded initial state through
operations whose damage-cost and appraised-value arguments are
non-negative. -/
inductive ReachableV : WorldState → Prop
  | seed : ReachableV seededState
  | step (st : WorldState) (op : Op) :
      ReachableV st → opValid op → ReachableV (applyOp st op)

/-- C7: `UpdateAsset` on an existing asset replaces the whole stored
record: the new record keeps only the passed fields (`id`, `color`,
`owner`, appraised value) while `brand`, `model` and `year` are reset to
zero values and the damage sequence is discarded (the nil slice);
`UpdateAsset` fails with `NotFound` when no record exists at `id`. -/
theorem updateAsset_replaces_record (st : WorldState) (id color : String) (size : Int)
    (owner : String) (av : ℚ) :
    (∀ a : Asset, getState st id = some (.asset a) →
      updateAsset st id color size owner av =
        .ok (putState id (.asset ⟨id, "", "", 0, color, owner, none, av⟩) st) ∧
      getState (putState id (.asset ⟨id, "", "", 0, color, owner, none, av⟩) st) id =
        some (.asset ⟨id, "", "", 0, color, owner, none, av⟩)) ∧
    (getState st id = none →
      updateAsset st id color size owner av =
        .error ("the asset " ++ id ++ " does not exist")) := by
  constructor
  · intro a hA
    refine ⟨?_, getState_putState_self st id _⟩
    simp [updateAsset, assetExists, hA]
  · intro h
    simp [updateAsset, assetExists, h]

/-- Witness for C7: updating seeded `asset1` overwrites the whole
record, and the brand, model, year and damages of the fiat are gone. -/
theorem updateAsset_replaces_record_witness :
    updateAsset seededState "asset1" "white" 0 "user9" 1 =
      .ok (putState "asset1" (.asset ⟨"asset1", "", "", 0, "white", "user9", none, 1⟩)
        seededState) ∧
    getState (putState "asset1" (.asset ⟨"asset1", "", "", 0, "white", "user9", none, 1⟩)
        seededState) "asset1" =
      some (.asset ⟨"asset1", "", "", 0, "white", "user9", none, 1⟩) :=
  (updateAsset_replaces_record seededState "asset1" "white" 0 "user9" 1).1
    ⟨"asset1", "fiat", "500L", 2018, "black", "user1", some [], 7000⟩ (by decide)

/-- C8: creating an asset at a fresh ID succeeds and stores a new asset
with an empty damage sequence and the given fields; a second create at
the same ID fails with `AlreadyExists`, issues no write, and leaves the
first record unchanged. -/
theorem createAsset_no_double_create (st : WorldState) (id brand model : String)
    (year : Int) (color owner : String) (av : ℚ) (h : getState st id = none) :
    createAsset st id brand model year color owner av =
      .ok (putState id (.asset ⟨id, brand, model, year, color, owner, some [], av⟩) st) ∧
    getState (putState id (.asset ⟨id, brand, model, year, color, owner, some [], av⟩) st) id =
      some (.asset ⟨id, brand, model, year, color, owner, some [], av⟩) ∧
    ∀ brand' model' : String, ∀ year' : Int, ∀ color' owner' : String, ∀ av' : ℚ,
      createAsset (putState id (.asset ⟨id, brand, model, year, color, owner, some [], av⟩) st)
          id brand' model' year' color' owner' av' =
        .error ("the asset " ++ id ++ " already exists") ∧
      applyOp (putState id (.asset ⟨id, brand, model, year, color, owner, some [], av⟩) st)
          (.opCreate id brand' model' year' color' owner' av') =
        putState id (.asset ⟨id, brand, model, year, color, owner, some [], av⟩) st ∧
      getState (putState id (.asset ⟨id, brand, model, year, color, owner, some [], av⟩) st) id =
        some (.asset ⟨id, brand, model, year, color, owner, some [], av⟩) := by
  refine ⟨by simp [createAsset, assetExists, h], getState_putState_self st id _, ?_⟩
  intro brand' model' year' color' owner' av'
  have hex : assetExists
      (putState id (.asset ⟨id, brand, model, year, color, owner, some [], av⟩) st) id = true := by
    simp [assetExists, getState_putState_self]
  refine ⟨by simp [createAsset, hex], ?_, getState_putState_self st id _⟩
  simp [applyOp, runOp, createAsset, hex]

/-- Witness for C8 at a concrete fresh ID over the seeded ledger. -/
theorem createAsset_no_double_create_witness :
    createAsset seededState "asset7" "vw" "golf" 2015 "green" "user3" 4000 =
      .ok (putState "asset7"
        (.asset ⟨"asset7", "vw", "golf", 2015, "green", "user3", some [], 4000⟩) seededState) ∧
    createAsset (putState "asset7"
        (.asset ⟨"asset7", "vw", "golf", 2015, "green", "user3", some [], 4000⟩) seededState)
        "asset7" "bmw" "m3" 2020 "red" "user1" 9000 =
      .error ("the asset " ++ "asset7" ++ " already exists") ∧
    getState (putState "asset7"
        (.asset ⟨"asset7", "vw", "golf", 2015, "green", "user3", some [], 4000⟩) seededState)
        "asset7" =
      some (.asset ⟨"asset7", "vw", "golf", 2015, "green", "user3", some [], 4000⟩) := by
  have h := createAsset_no_double_create seededState "asset7" "vw" "golf" 2015 "green" "user3"
    4000 (by decide)
  exact ⟨h.1, (h.2.2 "bmw" "m3" 2020 "red" "user1" 9000).1, h.2.1⟩

theorem findAssetsLoop_eq_filter (color owner : String) (l : List (String × Entry)) :
    findAssetsLoop color owner l =
      (getAllAssetsLoop l).filter
        (fun a => (a.color == color || color == "") && (owner == "" || a.ownerID == owner)) := by
  induction l with
  | nil => rfl
  | cons p rest ih =>
      simp only [findAssetsLoop, getAllAssetsLoop, List.filter_cons]
      by_cases hp : ((decodeAsset p.2).color == color || color == "") &&
          (owner == "" || (decodeAsset p.2).ownerID == owner) = true
      · simp only [hp, if_true, ih]
      · simp only [Bool.not_eq_true] at hp
        simp only [hp, if_false, ih]

/-- C9: `FindAssets` runs the same `["asset", "user")` scan as
`GetAllAssets` and keeps exactly the decoded assets for which the color
filter is empty or matches exactly and the owner filter is empty or
matches exactly, the two filters combined by logical AND; with both
filters empty it returns exactly `GetAllAssets`. -/
theorem findAssets_filters_getAllAssets (st : WorldState) (color owner : String) :
    findAssets st color owner =
      (getAllAssets st).filter
        (fun a => (a.color == color || color == "") && (owner == "" || a.ownerID == owner)) ∧
    findAssets st "" "" = getAllAssets st := by
  constructor
  · exact findAssetsLoop_eq_filter color owner (rangeScan "asset" "user" st)
  · rw [findAssets, findAssetsLoop_eq_filter, getAllAssets]
    simp

/-- C3: `CreateAssetDamage` on an existing asset appends the damage and
recomputes the total cost over the full sequence; when the total
strictly exceeds the appraised value the asset is deleted (a later read
reports `NotFound`), otherwise — including when the total exactly equals
the appraised value — the updated asset with the appended damage is
persisted. -/
theorem createAssetDamage_spec (st : WorldState) (id description : String) (cost : ℚ)
    (a : Asset) (hA : getState st id = some (.asset a)) :
    (a.appraisedValue < damagesTotal (damagesAppend a.damages ⟨description, cost⟩) →
      createAssetDamage st id description cost = .ok (delState id st) ∧
      getState (delState id st) id = none ∧
      readAsset (delState id st) id = .error ("the asset " ++ id ++ " does not exist")) ∧
    (damagesTotal (damagesAppend a.damages ⟨description, cost⟩) ≤ a.appraisedValue →
      createAssetDamage st id description cost =
        .ok (putState id
          (.asset { a with damages := damagesAppend a.damages ⟨description, cost⟩ }) st) ∧
      getState (putState id
          (.asset { a with damages := damagesAppend a.damages ⟨description, cost⟩ }) st) id =
        some (.asset { a with damages := damagesAppend a.damages ⟨description, cost⟩ })) := by
  constructor
  · intro hlt
    refine ⟨?_, getState_delState_self st id, ?_⟩
    · simp [createAssetDamage, hA, decodeAsset, hlt]
    · rw [readAsset, getState_delState_self]
  · intro hle
    have hnlt : ¬ (a.appraisedValue < damagesTotal (damagesAppend a.damages ⟨description, cost⟩)) :=
      not_lt.mpr hle
    refine ⟨?_, getState_putState_self st id _⟩
    simp [createAssetDamage, hA, decodeAsset, hnlt]

/-- The world state produced by the three writes of a successful
`TransferAsset`: previous owner credited (stored under the owner
record's own ID field), new owner debited (stored under the `newOwner`
argument), then the asset with its owner field rewritten. -/
def settledState (st : WorldState) (id newOwner : String) (a : Asset) (o nu : User)
    (p : ℚ) : WorldState :=
  putState id (.asset { a with ownerID := newOwner })
    (putState newOwner (.user { nu with money := nu.money - p })
      (putState o.id (.user { o with money := o.money + p }) st))

/-- C2: `TransferAsset` on an existing asset with a distinct existing
new owner settles at the full appraised value when the asset has no
damages; with at least one damage it settles at appraised value minus
the damage-cost sum when `withDamage` is true and fails with
`UnrepairedDamages` (writing nothing) when `withDamage` is false; it
fails with `InsufficientFunds` when the new owner's balance is below the
settlement price; on success the asset's owner becomes the new owner ID,
the price is credited to the previous owner and debited from the new
owner, and the damage sequence is unchanged. -/
theorem transferAsset_spec (st : WorldState) (id newOwner : String) (withDamage : Bool)
    (a : Asset) (o nu : User)
    (hA : getState st id = some (.asset a))
    (hne : a.ownerID ≠ newOwner)
    (hO : getState st a.ownerID = some (.user o))
    (hoid : o.id = a.ownerID)
    (hN : getState st newOwner = some (.user nu)) :
    (damagesLen a.damages ≠ 0 →
      transferAsset st id newOwner false = .error "Car has unrepaired damages" ∧
      applyOp st (.opTransfer id newOwner false) = st) ∧
    (damagesLen a.damages = 0 →
      (nu.money < a.appraisedValue →
        transferAsset st id newOwner withDamage =
          .error "Customer doesn't have enough money on his account") ∧
      (a.appraisedValue ≤ nu.money →
        transferAsset st id newOwner withDamage =
          .ok (settledState st id newOwner a o nu a.appraisedValue) ∧
        getState (settledState st id newOwner a o nu a.appraisedValue) id =
          some (.asset { a with ownerID := newOwner }) ∧
        (Asset.damages { a with ownerID := newOwner }) = a.damages ∧
        getState (settledState st id newOwner a o nu a.appraisedValue) a.ownerID =
          some (.user { o with money := o.money + a.appraisedValue }) ∧
        getState (settledState st id newOwner a o nu a.appraisedValue) newOwner =
          some (.user { nu with money := nu.money - a.appraisedValue }))) ∧
    (damagesLen a.damages ≠ 0 →
      (nu.money < a.appraisedValue - damagesTotal a.damages →
        transferAsset st id newOwner true =
          .error "Customer doesn't have enough money on his account") ∧
      (a.appraisedValue - damagesTotal a.damages ≤ nu.money →
        transferAsset st id newOwner true =
          .ok (settledState st id newOwner a o nu (a.appraisedValue - damagesTotal a.damages)) ∧
        getState (settledState st id newOwner a o nu (a.appraisedValue - damagesTotal a.damages))
            id = some (.asset { a with ownerID := newOwner }) ∧
        (Asset.damages { a with ownerID := newOwner }) = a.damages ∧
        getState (settledState st id newOwner a o nu (a.appraisedValue - damagesTotal a.damages))
            a.ownerID = some (.user { o with money := o.money + (a.appraisedValue - damagesTotal a.damages) }) ∧
        getState (settledState st id newOwner a o nu (a.appraisedValue - damagesTotal a.damages))
            newOwner = some (.user { nu with money := nu.money - (a.appraisedValue - damagesTotal a.damages) }))) := by
  have hIdN : id ≠ newOwner := by
    intro h
    rw [h, hN] at hA
    simp at hA
  have hIdO : id ≠ a.ownerID := by
    intro h
    rw [h, hO] at hA
    simp at hA
  have hred : ∀ w : Bool, transferAsset st id newOwner w =
      if damagesLen a.damages = 0 then
        transferFinish st id newOwner o nu { a with ownerID := newOwner } a.appraisedValue
      else if w then
        transferFinish st id newOwner o nu { a with ownerID := newOwner }
          (a.appraisedValue - damagesTotal a.damages)
      else .error "Car has unrepaired damages" := by
    intro w
    simp only [transferAsset, hA, decodeAsset]
    rw [if_neg hne]
    simp only [hO, decodeUser, hN]
  have hget : ∀ p : ℚ,
      getState (settledState st id newOwner a o nu p) id =
        some (.asset { a with ownerID := newOwner }) ∧
      getState (settledState st id newOwner a o nu p) a.ownerID =
        some (.user { o with money := o.money + p }) ∧
      getState (settledState st id newOwner a o nu p) newOwner =
        some (.user { nu with money := nu.money - p }) := by
    intro p
    refine ⟨getState_putState_self _ _ _, ?_, ?_⟩
    · rw [settledState, getState_putState_ne _ _ _ _ (fun h => hIdO h.symm),
        getState_putState_ne _ _ _ _ hne, ← hoid, getState_putState_self]
    · rw [settledState, getState_putState_ne _ _ _ _ (fun h => hIdN h.symm),
        getState_putState_self]
  refine ⟨?_, ?_, ?_⟩
  · intro hlen
    have herr : transferAsset st id newOwner false = .error "Car has unrepaired damages" := by
      rw [hred false, if_neg hlen]
      simp
    exact ⟨herr, by simp [applyOp, runOp, herr]⟩
  · intro hlen
    constructor
    · intro hlt
      rw [hred withDamage, if_pos hlen, transferFinish, if_pos hlt]
    · intro hle
      have hok : transferAsset st id newOwner withDamage =
          .ok (settledState st id newOwner a o nu a.appraisedValue) := by
        rw [hred withDamage, if_pos hlen, transferFinish, if_neg (not_lt.mpr hle)]
        rfl
      exact ⟨hok, (hget _).1, rfl, (hget _).2.1, (hget _).2.2⟩
  · intro hlen
    constructor
    · intro hlt
      rw [hred true, if_neg hlen, if_pos rfl, transferFinish, if_pos hlt]
    · intro hle
      have hok : transferAsset st id newOwner true =
          .ok (settledState st id newOwner a o nu (a.appraisedValue - damagesTotal a.damages)) := by
        rw [hred true, if_neg hlen, if_pos rfl, transferFinish, if_neg (not_lt.mpr hle)]
        rfl
      exact ⟨hok, (hget _).1, rfl, (hget _).2.1, (hget _).2.2⟩

/-- Witness for C2: transferring the undamaged seeded `asset2` from
`user2` to `user1` succeeds at the full appraised value 5000. -/
theorem transferAsset_spec_witness :
    transferAsset seededState "asset2" "user1" false =
      .ok (settledState seededState "asset2" "user1"
        ⟨"asset2", "audi", "A6", 2016, "blue", "user2", some [], 5000⟩
        ⟨"user2", "Jovan", "Jovanovic", "jovan.jovanovic@email.com", 5000⟩
        ⟨"user1", "Marko", "Markovic", "marko.markovic@email.com", 10000⟩ 5000) :=
  (((transferAsset_spec seededState "asset2" "user1" false
      ⟨"asset2", "audi", "A6", 2016, "blue", "user2", some [], 5000⟩
      ⟨"user2", "Jovan", "Jovanovic", "jovan.jovanovic@email.com", 5000⟩
      ⟨"user1", "Marko", "Markovic", "marko.markovic@email.com", 10000⟩
      (by decide) (by decide) (by decide) (by decide) (by decide)).2.1
    (by decide)).2 (by decide)).1

theorem key_ne_of_asset_user (st : WorldState) (k1 k2 : String) (a : Asset) (u : User)
    (h1 : getState st k1 = some (.asset a)) (h2 : getState st k2 = some (.user u)) :
    k1 ≠ k2 := by
  intro h
  rw [h, h2] at h1
  simp at h1

/-- C1 (amended): the sum of the balances of the two affected users is
preserved by every successful `TransferAsset` call (the two are distinct
because self-transfer is rejected), and by every successful
`RepairDamages` call whose owner ID differs from the mechanic ID.  When
owner and mechanic coincide the code instead credits the repair cost to
that single user (see the counterexample), so the repair half carries
the distinctness hypothesis the counterexample forces. -/
theorem money_conservation_transfer_repair :
    (∀ (st st' : WorldState) (id newOwner : String) (w : Bool) (a : Asset) (o nu : User),
      getState st id = some (.asset a) →
      getState st a.ownerID = some (.user o) →
      o.id = a.ownerID →
      getState st newOwner = some (.user nu) →
      transferAsset st id newOwner w = .ok st' →
      ∃ o' nu' : User,
        getState st' a.ownerID = some (.user o') ∧
        getState st' newOwner = some (.user nu') ∧
        o'.money + nu'.money = o.money + nu.money) ∧
    (∀ (st st' : WorldState) (id mechanic : String) (a : Asset) (o m : User),
      getState st id = some (.asset a) →
      getState st a.ownerID = some (.user o) →
      o.id = a.ownerID →
      getState st mechanic = some (.user m) →
      a.ownerID ≠ mechanic →
      repairDamages st id mechanic = .ok st' →
      ∃ o' m' : User,
        getState st' a.ownerID = some (.user o') ∧
        getState st' mechanic = some (.user m') ∧
        o'.money + m'.money = o.money + m.money) := by
  constructor
  · intro st st' id newOwner w a o nu hA hO hoid hN hT
    have hIdN : id ≠ newOwner := key_ne_of_asset_user st id newOwner a nu hA hN
    have hIdO : id ≠ a.ownerID := key_ne_of_asset_user st id a.ownerID a o hA hO
    by_cases hne : a.ownerID = newOwner
    · rw [transferAsset, hA] at hT
      simp only [decodeAsset] at hT
      rw [if_pos hne] at hT
      cases hT
    · have hred : transferAsset st id newOwner w =
          if damagesLen a.damages = 0 then
            transferFinish st id newOwner o nu { a with ownerID := newOwner } a.appraisedValue
          else if w then
            transferFinish st id newOwner o nu { a with ownerID := newOwner }
              (a.appraisedValue - damagesTotal a.damages)
          else .error "Car has unrepaired damages" := by
        simp only [transferAsset, hA, decodeAsset]
        rw [if_neg hne]
        simp only [hO, decodeUser, hN]
      rw [hred] at hT
      have hfin : ∀ p : ℚ,
          transferFinish st id newOwner o nu { a with ownerID := newOwner } p = .ok st' →
          ∃ o' nu' : User,
            getState st' a.ownerID = some (.user o') ∧
            getState st' newOwner = some (.user nu') ∧
            o'.money + nu'.money = o.money + nu.money := by
        intro p hp
        rw [transferFinish] at hp
        by_cases hlt : nu.money < p
        · rw [if_pos hlt] at hp
          cases hp
        · rw [if_neg hlt] at hp
          rw [Except.ok.injEq] at hp
          subst hp
          refine ⟨{ o with money := o.money + p }, { nu with money := nu.money - p }, ?_, ?_, by ring⟩
          · rw [getState_putState_ne _ _ _ _ (fun h => hIdO h.symm),
              getState_putState_ne _ _ _ _ hne, ← hoid, getState_putState_self]
          · rw [getState_putState_ne _ _ _ _ (fun h => hIdN h.symm), getState_putState_self]
      by_cases hlen : damagesLen a.damages = 0
      · rw [if_pos hlen] at hT
        exact hfin _ hT
      · rw [if_neg hlen] at hT
        cases w with
        | false => simp at hT
        | true =>
            rw [if_pos rfl] at hT
            exact hfin _ hT
  · intro st st' id mechanic a o m hA hO hoid hM hnm hR
    have hIdM : id ≠ mechanic := key_ne_of_asset_user st id mechanic a m hA hM
    have hIdO : id ≠ a.ownerID := key_ne_of_asset_user st id a.ownerID a o hA hO
    have hred : repairDamages st id mechanic =
        if o.money < damagesTotal a.damages then
          .error "Owner doesn't have enough money on his account"
        else
          .ok (putState id (.asset { a with damages := some [] })
                (putState mechanic
                  (.user { m with money := m.money + damagesTotal a.damages })
                  (putState o.id
                    (.user { o with money := o.money - damagesTotal a.damages }) st))) := by
      simp only [repairDamages, hA, decodeAsset, hO, decodeUser, hM]
    rw [hred] at hR
    by_cases hlt : o.money < damagesTotal a.damages
    · rw [if_pos hlt] at hR
      cases hR
    · rw [if_neg hlt] at hR
      rw [Except.ok.injEq] at hR
      subst hR
      refine ⟨{ o with money := o.money - damagesTotal a.damages },
        { m with money := m.money + damagesTotal a.damages }, ?_, ?_, by ring⟩
      · rw [getState_putState_ne _ _ _ _ (fun h => hIdO h.symm),
          getState_putState_ne _ _ _ _ hnm, ← hoid, getState_putState_self]
      · rw [getState_putState_ne _ _ _ _ (fun h => hIdM h.symm), getState_putState_self]

/-- Witness for C1: the seeded `asset2` transfer from `user2` to `user1`
preserves the 5000 + 10000 balance sum. -/
theorem money_conservation_witness :
    ∃ o' nu' : User,
      getState (settledState seededState "asset2" "user1"
        ⟨"asset2", "audi", "A6", 2016, "blue", "user2", some [], 5000⟩
        ⟨"user2", "Jovan", "Jovanovic", "jovan.jovanovic@email.com", 5000⟩
        ⟨"user1", "Marko", "Markovic", "marko.markovic@email.com", 10000⟩ 5000) "user2" =
        some (.user o') ∧
      getState (settledState seededState "asset2" "user1"
        ⟨"asset2", "audi", "A6", 2016, "blue", "user2", some [], 5000⟩
        ⟨"user2", "Jovan", "Jovanovic", "jovan.jovanovic@email.com", 5000⟩
        ⟨"user1", "Marko", "Markovic", "marko.markovic@email.com", 10000⟩ 5000) "user1" =
        some (.user nu') ∧
      o'.money + nu'.money = 5000 + 10000 :=
  money_conservation_transfer_repair.1 seededState _ "asset2" "user1" false
    ⟨"asset2", "audi", "A6", 2016, "blue", "user2", some [], 5000⟩
    ⟨"user2", "Jovan", "Jovanovic", "jovan.jovanovic@email.com", 5000⟩
    ⟨"user1", "Marko", "Markovic", "marko.markovic@email.com", 10000⟩
    (by decide) (by decide) (by decide) (by decide) (by rfl)

/-- A ledger with one damaged asset whose owner will act as his own
mechanic. -/
def stSelfRepair : WorldState :=
  [("asset1", .asset ⟨"asset1", "fiat", "500L", 2018, "black", "user1",
      some [⟨"dent", 100⟩], 7000⟩),
   ("user1", .user ⟨"user1", "Marko", "Markovic", "marko.markovic@email.com", 10000⟩)]

/-- Counterexample for C1 as stated: when the owner ID and the mechanic
ID name the same user, a successful `RepairDamages` call changes the sum
of the affected users' balances — the single user `user1` starts with
10000 and ends with 10100 (the last of the two writes to the same key
wins, so the debit is lost and the repair cost is created). -/
theorem repair_self_mechanic_creates_money :
    getState stSelfRepair "user1" =
      some (.user ⟨"user1", "Marko", "Markovic", "marko.markovic@email.com", 10000⟩) ∧
    (repairDamages stSelfRepair "asset1" "user1").isOk = true ∧
    getState (applyOp stSelfRepair (.opRepair "asset1" "user1")) "user1" =
      some (.user ⟨"user1", "Marko", "Markovic", "marko.markovic@email.com", 10100⟩) ∧
    (10100 : ℚ) ≠ 10000 := by
  have hrun : repairDamages stSelfRepair "asset1" "user1" =
      .ok [("asset1", .asset ⟨"asset1", "fiat", "500L", 2018, "black", "user1",
              some [], 7000⟩),
           ("user1", .user ⟨"user1", "Marko", "Markovic", "marko.markovic@email.com",
              10100⟩)] := by
    norm_num +decide [repairDamages, stSelfRepair, getState, decodeAsset, decodeUser,
      damagesTotal, damagesList, costSum, putState]
  refine ⟨by decide, ?_, ?_, by norm_num⟩
  · rw [hrun]
    rfl
  · simp only [applyOp, runOp, hrun]
    decide

theorem damagesAppend_isSome (d : Option (List Damage)) (x : Damage) :
    (damagesAppend d x).isSome = true := by
  cases d <;> rfl

/-- C6 (amended): initialization, create, damage addition and repair
always persist an asset whose damages field is a present sequence
(empty for init/create/repair, the appended sequence for damage
addition); color change and ownership transfer persist exactly the
damage sequence of the record they read (present iff it was present);
`UpdateAsset`, by contrast, persists a record whose damages field is the
absent nil slice (serialized as JSON `null`), not a present sequence. -/
theorem damages_field_per_path :
    (seededState.all (fun p => damagesPresent p.2) = true) ∧
    (∀ (st st' : WorldState) (id brand model : String) (year : Int) (color owner : String)
        (av : ℚ), createAsset st id brand model year color owner av = .ok st' →
      ∃ a' : Asset, getState st' id = some (.asset a') ∧ a'.damages = some []) ∧
    (∀ (st st' : WorldState) (id description : String) (cost : ℚ) (a a' : Asset),
      getState st id = some (.asset a) →
      createAssetDamage st id description cost = .ok st' →
      getState st' id = some (.asset a') →
      a'.damages.isSome = true) ∧
    (∀ (st st' : WorldState) (id mechanic : String),
      repairDamages st id mechanic = .ok st' →
      ∃ a' : Asset, getState st' id = some (.asset a') ∧ a'.damages = some []) ∧
    (∀ (st st' : WorldState) (id color : String) (a : Asset),
      getState st id = some (.asset a) →
      changeAssetColor st id color = .ok st' →
      ∃ a' : Asset, getState st' id = some (.asset a') ∧ a'.damages = a.damages) ∧
    (∀ (st st' : WorldState) (id newOwner : String) (w : Bool) (a : Asset),
      getState st id = some (.asset a) →
      transferAsset st id newOwner w = .ok st' →
      ∃ a' : Asset, getState st' id = some (.asset a') ∧ a'.damages = a.damages) ∧
    (∀ (st st' : WorldState) (id color : String) (size : Int) (owner : String) (av : ℚ),
      updateAsset st id color size owner av = .ok st' →
      ∃ a' : Asset, getState st' id = some (.asset a') ∧ a'.damages = none) := by
  refine ⟨by decide, ?_, ?_, ?_, ?_, ?_, ?_⟩
  · intro st st' id brand model year color owner av h
    rw [createAsset] at h
    by_cases hex : assetExists st id
    · rw [if_pos hex] at h
      cases h
    · rw [if_neg hex, Except.ok.injEq] at h
      subst h
      exact ⟨_, getState_putState_self _ _ _, rfl⟩
  · intro st st' id description cost a a' hA h hA'
    simp only [createAssetDamage, hA, decodeAsset] at h
    by_cases hlt : a.appraisedValue <
        damagesTotal (damagesAppend a.damages ⟨description, cost⟩)
    · rw [if_pos hlt, Except.ok.injEq] at h
      subst h
      rw [getState_delState_self] at hA'
      cases hA'
    · rw [if_neg hlt, Except.ok.injEq] at h
      subst h
      rw [getState_putState_self] at hA'
      injection hA' with hA'
      injection hA' with hA'
      subst hA'
      exact damagesAppend_isSome _ _
  · intro st st' id mechanic h
    cases hE : getState st id with
    | none =>
        simp only [repairDamages, hE] at h
        cases h
    | some e =>
        simp only [repairDamages, hE] at h
        cases hEo : getState st (decodeAsset e).ownerID with
        | none =>
            simp only [hEo] at h
            cases h
        | some eo =>
            simp only [hEo] at h
            cases hEm : getState st mechanic with
            | none =>
                simp only [hEm] at h
                cases h
            | some em =>
                simp only [hEm] at h
                by_cases hlt : (decodeUser eo).money < damagesTotal (decodeAsset e).damages
                · rw [if_pos hlt] at h
                  cases h
                · rw [if_neg hlt, Except.ok.injEq] at h
                  subst h
                  exact ⟨_, getState_putState_self _ _ _, rfl⟩
  · intro st st' id color a hA h
    simp only [changeAssetColor, hA, decodeAsset] at h
    rw [Except.ok.injEq] at h
    subst h
    exact ⟨_, getState_putState_self _ _ _, rfl⟩
  · intro st st' id newOwner w a hA h
    simp only [transferAsset, hA, decodeAsset] at h
    by_cases hne : a.ownerID = newOwner
    · rw [if_pos hne] at h
      cases h
    · rw [if_neg hne] at h
      cases hEo : getState st a.ownerID with
      | none =>
          simp only [hEo] at h
          cases h
      | some eo =>
          simp only [hEo] at h
          cases hEn : getState st newOwner with
          | none =>
              simp only [hEn] at h
              cases h
          | some en =>
              simp only [hEn] at h
              have hfin : ∀ p : ℚ,
                  transferFinish st id newOwner (decodeUser eo) (decodeUser en)
                    { a with ownerID := newOwner } p = .ok st' →
                  ∃ a' : Asset, getState st' id = some (.asset a') ∧ a'.damages = a.damages := by
                intro p hp
                rw [transferFinish] at hp
                by_cases hlt : (decodeUser en).money < p
                · rw [if_pos hlt] at hp
                  cases hp
                · rw [if_neg hlt, Except.ok.injEq] at hp
                  subst hp
                  exact ⟨_, getState_putState_self _ _ _, rfl⟩
              by_cases hlen : damagesLen a.damages = 0
              · rw [if_pos hlen] at h
                exact hfin _ h
              · rw [if_neg hlen] at h
                cases w with
                | false => simp at h
                | true =>
                    rw [if_pos rfl] at h
                    exact hfin _ h
  · intro st st' id color size owner av h
    rw [updateAsset] at h
    by_cases hex : assetExists st id
    · rw [if_pos hex, Except.ok.injEq] at h
      subst h
      exact ⟨_, getState_putState_self _ _ _, rfl⟩
    · rw [if_neg hex] at h
      cases h

/-- Witness for C6: updating seeded `asset1` stores a record whose
damages field is the absent nil slice. -/
theorem damages_field_per_path_witness :
    ∃ a' : Asset,
      getState (putState "asset1"
          (.asset ⟨"asset1", "", "", 0, "white", "user9", none, 1⟩) seededState) "asset1" =
        some (.asset a') ∧
      a'.damages = none :=
  damages_field_per_path.2.2.2.2.2.2 seededState _ "asset1" "white" 0 "user9" 1 (by rfl)

/-- Counterexample for C6 as stated: `UpdateAsset` is a code path that
persists an asset, and the record it writes has an absent (nil,
serialized null) damages field rather than a present sequence. -/
theorem updateAsset_writes_nil_damages :
    updateAsset seededState "asset1" "black" 0 "user1" 7000 =
      .ok (putState "asset1" (.asset ⟨"asset1", "", "", 0, "black", "user1", none, 7000⟩)
        seededState) ∧
    getState (putState "asset1" (.asset ⟨"asset1", "", "", 0, "black", "user1", none, 7000⟩)
        seededState) "asset1" =
      some (.asset ⟨"asset1", "", "", 0, "black", "user1", none, 7000⟩) ∧
    damagesPresent (.asset ⟨"asset1", "", "", 0, "black", "user1", none, 7000⟩) = false :=
  ⟨by rfl, by decide, rfl⟩

/-- Witness for C3: a damage of 8000 on seeded `asset1` (appraised 7000)
deletes the asset and a subsequent read reports `NotFound`. -/
theorem createAssetDamage_spec_witness :
    createAssetDamage seededState "asset1" "crash" 8000 = .ok (delState "asset1" seededState) ∧
    readAsset (delState "asset1" seededState) "asset1" =
      .error ("the asset " ++ "asset1" ++ " does not exist") := by
  have h := (createAssetDamage_spec seededState "asset1" "crash" 8000
    ⟨"asset1", "fiat", "500L", 2018, "black", "user1", some [], 7000⟩ (by decide)).1
    (by norm_num [damagesTotal, damagesAppend, damagesList, costSum])
  exact ⟨h.1, h.2.2⟩

theorem costSum_nonneg (l : List Damage) (h : ∀ d ∈ l, 0 ≤ d.cost) : 0 ≤ costSum l := by
  induction l with
  | nil => exact le_refl 0
  | cons d ds ih =>
      rw [costSum]
      exact add_nonneg (h d (List.mem_cons_self d ds)) (ih fun x hx => h x (List.mem_cons_of_mem d hx))

theorem decodeUser_money_nonneg (st : WorldState) (k : String) (e : Entry)
    (hb : balancesNonneg st = true) (hE : getState st k = some e) :
    0 ≤ (decodeUser e).money := by
  cases e with
  | asset a => exact le_refl 0
  | user u =>
      have h := all_getState (fun p => entryBalanceNonneg p.2) st k _ hb hE
      simpa [entryBalanceNonneg, decodeUser] using h

theorem decodeAsset_total_bounds (st : WorldState) (k : String) (e : Entry)
    (hc : costsNonneg st = true) (hd : assetsBounded st = true)
    (hE : getState st k = some e) :
    0 ≤ damagesTotal (decodeAsset e).damages ∧
    damagesTotal (decodeAsset e).damages ≤ (decodeAsset e).appraisedValue := by
  cases e with
  | user u => exact ⟨le_refl 0, le_refl 0⟩
  | asset a =>
      have h1 := all_getState (fun p => entryCostsNonneg p.2) st k _ hc hE
      have h2 := all_getState (fun p => entryBounded p.2) st k _ hd hE
      simp only [entryCostsNonneg, List.all_eq_true, decide_eq_true_eq] at h1
      simp only [entryBounded, decide_eq_true_eq] at h2
      exact ⟨costSum_nonneg _ h1, h2⟩

theorem balancesNonneg_putState_asset (st : WorldState) (k : String) (a : Asset)
    (h : balancesNonneg st = true) :
    balancesNonneg (putState k (.asset a) st) = true :=
  all_putState _ st k _ h rfl

theorem balancesNonneg_putState_user (st : WorldState) (k : String) (u : User)
    (hm : 0 ≤ u.money) (h : balancesNonneg st = true) :
    balancesNonneg (putState k (.user u) st) = true :=
  all_putState _ st k _ h (by simp [entryBalanceNonneg, hm])

theorem applyOp_balances_of (st : WorldState) (op : Op)
    (hb : balancesNonneg st = true)
    (hok : ∀ st', runOp st op = .ok st' → balancesNonneg st' = true) :
    balancesNonneg (applyOp st op) = true := by
  rw [applyOp]
  split
  · next st' hr => exact hok st' hr
  · exact hb

set_option maxHeartbeats 1000000 in
/-- C5 (amended): if all stored user balances are non-negative, all
stored damage costs are non-negative, and every stored asset's total
damage cost is at most its appraised value, then after any operation —
successful or failed — all stored user balances are still non-negative.
The third hypothesis is what the counterexample forces: without it a
transfer can settle at a negative price and drive the previous owner's
balance negative. -/
theorem balances_nonneg_preserved (st : WorldState) (op : Op)
    (hb : balancesNonneg st = true) (hc : costsNonneg st = true)
    (hd : assetsBounded st = true) :
    balancesNonneg (applyOp st op) = true := by
  apply applyOp_balances_of st op hb
  intro st' hr
  cases op with
  | opInit =>
      simp only [runOp, initLedger, Except.ok.injEq] at hr
      subst hr
      simp only [seedUsers, seedAssets, List.foldl]
      apply balancesNonneg_putState_asset
      apply balancesNonneg_putState_asset
      apply balancesNonneg_putState_asset
      apply balancesNonneg_putState_asset
      apply balancesNonneg_putState_asset
      apply balancesNonneg_putState_asset
      apply balancesNonneg_putState_user _ _ _ (by norm_num)
      apply balancesNonneg_putState_user _ _ _ (by norm_num)
      apply balancesNonneg_putState_user _ _ _ (by norm_num)
      exact hb
  | opCreate id brand model year color owner av =>
      rw [runOp, createAsset] at hr
      by_cases hex : assetExists st id
      · rw [if_pos hex] at hr
        cases hr
      · rw [if_neg hex, Except.ok.injEq] at hr
        subst hr
        exact balancesNonneg_putState_asset _ _ _ hb
  | opUpdate id color size owner av =>
      rw [runOp, updateAsset] at hr
      by_cases hex : assetExists st id
      · rw [if_pos hex, Except.ok.injEq] at hr
        subst hr
        exact balancesNonneg_putState_asset _ _ _ hb
      · rw [if_neg hex] at hr
        cases hr
  | opDelete id =>
      rw [runOp, deleteAsset] at hr
      by_cases hex : assetExists st id
      · rw [if_pos hex, Except.ok.injEq] at hr
        subst hr
        exact all_delState _ st id hb
      · rw [if_neg hex] at hr
        cases hr
  | opChangeColor id color =>
      cases hE : getState st id with
      | none =>
          simp only [runOp, changeAssetColor, hE] at hr
          cases hr
      | some e =>
          simp only [runOp, changeAssetColor, hE, Except.ok.injEq] at hr
          subst hr
          exact balancesNonneg_putState_asset _ _ _ hb
  | opAddDamage id description cost =>
      cases hE : getState st id with
      | none =>
          simp only [runOp, createAssetDamage, hE] at hr
          cases hr
      | some e =>
          simp only [runOp, createAssetDamage, hE] at hr
          by_cases hlt : (decodeAsset e).appraisedValue <
              damagesTotal (damagesAppend (decodeAsset e).damages ⟨description, cost⟩)
          · rw [if_pos hlt, Except.ok.injEq] at hr
            subst hr
            exact all_delState _ st id hb
          · rw [if_neg hlt, Except.ok.injEq] at hr
            subst hr
            exact balancesNonneg_putState_asset _ _ _ hb
  | opRepair id mechanic =>
      cases hE : getState st id with
      | none =>
          simp only [runOp, repairDamages, hE] at hr
          cases hr
      | some e =>
          simp only [runOp, repairDamages, hE] at hr
          cases hEo : getState st (decodeAsset e).ownerID with
          | none =>
              simp only [hEo] at hr
              cases hr
          | some eo =>
              simp only [hEo] at hr
              cases hEm : getState st mechanic with
              | none =>
                  simp only [hEm] at hr
                  cases hr
              | some em =>
                  simp only [hEm] at hr
                  have hmM : 0 ≤ (decodeUser em).money :=
                    decodeUser_money_nonneg st mechanic em hb hEm
                  have htot : 0 ≤ damagesTotal (decodeAsset e).damages :=
                    (decodeAsset_total_bounds st id e hc hd hE).1
                  by_cases hlt : (decodeUser eo).money < damagesTotal (decodeAsset e).damages
                  · rw [if_pos hlt] at hr
                    cases hr
                  · rw [if_neg hlt, Except.ok.injEq] at hr
                    subst hr
                    apply balancesNonneg_putState_asset
                    apply balancesNonneg_putState_user _ _ _ (add_nonneg hmM htot)
                    apply balancesNonneg_putState_user _ _ _
                      (sub_nonneg.mpr (not_lt.mp hlt))
                    exact hb
  | opTransfer id newOwner w =>
      cases hE : getState st id with
      | none =>
          simp only [runOp, transferAsset, hE] at hr
          cases hr
      | some e =>
          simp only [runOp, transferAsset, hE] at hr
          by_cases hne : (decodeAsset e).ownerID = newOwner
          · rw [if_pos hne] at hr
            cases hr
          · rw [if_neg hne] at hr
            cases hEo : getState st (decodeAsset e).ownerID with
            | none =>
                simp only [hEo] at hr
                cases hr
            | some eo =>
                simp only [hEo] at hr
                cases hEn : getState st newOwner with
                | none =>
                    simp only [hEn] at hr
                    cases hr
                | some en =>
                    simp only [hEn] at hr
                    have hmO : 0 ≤ (decodeUser eo).money :=
                      decodeUser_money_nonneg st _ eo hb hEo
                    have hbd := decodeAsset_total_bounds st id e hc hd hE
                    have hfin : ∀ p : ℚ, 0 ≤ p →
                        transferFinish st id newOwner (decodeUser eo) (decodeUser en)
                          { decodeAsset e with ownerID := newOwner } p = .ok st' →
                        balancesNonneg st' = true := by
                      intro p hp hfp
                      rw [transferFinish] at hfp
                      by_cases hlt : (decodeUser en).money < p
                      · rw [if_pos hlt] at hfp
                        cases hfp
                      · rw [if_neg hlt, Except.ok.injEq] at hfp
                        subst hfp
                        apply balancesNonneg_putState_asset
                        apply balancesNonneg_putState_user _ _ _
                          (sub_nonneg.mpr (not_lt.mp hlt))
                        apply balancesNonneg_putState_user _ _ _ (add_nonneg hmO hp)
                        exact hb
                    by_cases hlen : damagesLen (decodeAsset e).damages = 0
                    · rw [if_pos hlen] at hr
                      exact hfin _ (le_trans hbd.1 hbd.2) hr
                    · rw [if_neg hlen] at hr
                      cases w with
                      | false => simp at hr
                      | true =>
                          rw [if_pos rfl] at hr
                          exact hfin _ (sub_nonneg.mpr hbd.2) hr

/-- Witness for C5: transferring seeded `asset2` preserves
non-negativity of every stored balance. -/
theorem balances_nonneg_preserved_witness :
    balancesNonneg (applyOp seededState (.opTransfer "asset2" "user1" false)) = true :=
  balances_nonneg_preserved seededState (.opTransfer "asset2" "user1" false)
    (by decide) (by decide) (by decide)

/-- A ledger satisfying the claim's hypotheses (all balances and damage
costs non-negative) in which one asset's damage total (100) exceeds its
appraised value (0). -/
def stNegSettle : WorldState :=
  [("asset1", .asset ⟨"asset1", "fiat", "500L", 2018, "black", "user1",
      some [⟨"dent", 100⟩], 0⟩),
   ("user1", .user ⟨"user1", "Ana", "Anic", "ana@email.com", 0⟩),
   ("user2", .user ⟨"user2", "Bob", "Bobic", "bob@email.com", 0⟩)]

/-- Counterexample for C5 as stated: from a state with all balances and
all damage costs non-negative, an acknowledged-damage transfer settles
at the negative price 0 - 100; the insufficient-funds check passes
(0 < -100 is false), the previous owner is credited -100, and a stored
balance becomes negative. -/
theorem negative_settlement_breaks_balance :
    balancesNonneg stNegSettle = true ∧
    costsNonneg stNegSettle = true ∧
    getState (applyOp stNegSettle (.opTransfer "asset1" "user2" true)) "user1" =
      some (.user ⟨"user1", "Ana", "Anic", "ana@email.com", -100⟩) ∧
    balancesNonneg (applyOp stNegSettle (.opTransfer "asset1" "user2" true)) = false := by
  have hrun : transferAsset stNegSettle "asset1" "user2" true =
      .ok [("asset1", .asset ⟨"asset1", "fiat", "500L", 2018, "black", "user2",
              some [⟨"dent", 100⟩], 0⟩),
           ("user2", .user ⟨"user2", "Bob", "Bobic", "bob@email.com", 100⟩),
           ("user1", .user ⟨"user1", "Ana", "Anic", "ana@email.com", -100⟩)] := by
    norm_num +decide [transferAsset, transferFinish, stNegSettle, getState, decodeAsset,
      decodeUser, damagesLen, damagesTotal, damagesList, costSum, putState]
  refine ⟨by decide, by decide, ?_, ?_⟩
  · simp only [applyOp, runOp, hrun]
    decide
  · simp only [applyOp, runOp, hrun]
    decide

/-- A stored record is well-formed for the damage-bound invariant: its
damage costs are non-negative and their sum is at most the appraised
value (trivially true for user records). -/
def entryGood (e : Entry) : Bool := entryCostsNonneg e && entryBounded e

/-- Every stored record is well-formed. -/
def goodState (st : WorldState) : Bool := st.all (fun p => entryGood p.2)

theorem goodState_split (st : WorldState) (h : goodState st = true) :
    costsNonneg st = true ∧ assetsBounded st = true := by
  rw [goodState, List.all_eq_true] at h
  constructor
  · rw [costsNonneg, List.all_eq_true]
    intro p hp
    have hp2 := h p hp
    simp only [entryGood, Bool.and_eq_true] at hp2
    exact hp2.1
  · rw [assetsBounded, List.all_eq_true]
    intro p hp
    have hp2 := h p hp
    simp only [entryGood, Bool.and_eq_true] at hp2
    exact hp2.2

theorem goodState_putState (st : WorldState) (k : String) (v : Entry)
    (h : goodState st = true) (he : entryGood v = true) :
    goodState (putState k v st) = true :=
  all_putState _ st k v h he

theorem goodState_putState_user (st : WorldState) (k : String) (u : User)
    (h : goodState st = true) :
    goodState (putState k (.user u) st) = true :=
  all_putState _ st k _ h rfl

theorem goodState_putState_asset (st : WorldState) (k : String) (a : Asset)
    (h : goodState st = true)
    (hcost : ∀ d ∈ damagesList a.damages, 0 ≤ d.cost)
    (hbd : damagesTotal a.damages ≤ a.appraisedValue) :
    goodState (putState k (.asset a) st) = true := by
  apply goodState_putState st k _ h
  simp only [entryGood, entryCostsNonneg, entryBounded, Bool.and_eq_true, List.all_eq_true,
    decide_eq_true_eq]
  exact ⟨hcost, hbd⟩

theorem entryGood_decode (st : WorldState) (k : String) (e : Entry)
    (hg : goodState st = true) (hE : getState st k = some e) :
    (∀ d ∈ damagesList (decodeAsset e).damages, 0 ≤ d.cost) ∧
    damagesTotal (decodeAsset e).damages ≤ (decodeAsset e).appraisedValue := by
  cases e with
  | user u =>
      refine ⟨?_, le_refl 0⟩
      intro d hd
      simp [decodeAsset, damagesList] at hd
  | asset a =>
      have h := all_getState (fun p => entryGood p.2) st k _ hg hE
      simp only [entryGood, entryCostsNonneg, entryBounded, Bool.and_eq_true,
        List.all_eq_true, decide_eq_true_eq] at h
      exact h

theorem damagesList_append (d : Option (List Damage)) (x : Damage) :
    damagesList (damagesAppend d x) = damagesList d ++ [x] := by
  cases d <;> rfl

theorem applyOp_good_of (st : WorldState) (op : Op)
    (hg : goodState st = true)
    (hok : ∀ st', runOp st op = .ok st' → goodState st' = true) :
    goodState (applyOp st op) = true := by
  rw [applyOp]
  split
  · next st' hr => exact hok st' hr
  · exact hg

set_option maxHeartbeats 1000000 in
theorem goodState_step (st : WorldState) (op : Op) (hv : opValid op)
    (hg : goodState st = true) : goodState (applyOp st op) = true := by
  apply applyOp_good_of st op hg
  intro st' hr
  cases op with
  | opInit =>
      simp only [runOp, initLedger, Except.ok.injEq] at hr
      subst hr
      simp only [seedUsers, seedAssets, List.foldl]
      refine goodState_putState _ _ _ ?_ (by decide)
      refine goodState_putState _ _ _ ?_ (by decide)
      refine goodState_putState _ _ _ ?_ (by decide)
      refine goodState_putState _ _ _ ?_ (by decide)
      refine goodState_putState _ _ _ ?_ (by decide)
      refine goodState_putState _ _ _ ?_ (by decide)
      refine goodState_putState _ _ _ ?_ (by decide)
      refine goodState_putState _ _ _ ?_ (by decide)
      refine goodState_putState _ _ _ ?_ (by decide)
      exact hg
  | opCreate id brand model year color owner av =>
      rw [runOp, createAsset] at hr
      by_cases hex : assetExists st id
      · rw [if_pos hex] at hr
        cases hr
      · rw [if_neg hex, Except.ok.injEq] at hr
        subst hr
        refine goodState_putState_asset st id _ hg ?_ ?_
        · intro d hd
          simp [damagesList] at hd
        · simpa [damagesTotal, damagesList, costSum] using hv
  | opUpdate id color size owner av =>
      rw [runOp, updateAsset] at hr
      by_cases hex : assetExists st id
      · rw [if_pos hex, Except.ok.injEq] at hr
        subst hr
        refine goodState_putState_asset st id _ hg ?_ ?_
        · intro d hd
          simp [damagesList] at hd
        · simpa [damagesTotal, damagesList, costSum] using hv
      · rw [if_neg hex] at hr
        cases hr
  | opDelete id =>
      rw [runOp, deleteAsset] at hr
      by_cases hex : assetExists st id
      · rw [if_pos hex, Except.ok.injEq] at hr
        subst hr
        exact all_delState _ st id hg
      · rw [if_neg hex] at hr
        cases hr
  | opChangeColor id color =>
      cases hE : getState st id with
      | none =>
          simp only [runOp, changeAssetColor, hE] at hr
          cases hr
      | some e =>
          simp only [runOp, changeAssetColor, hE, Except.ok.injEq] at hr
          subst hr
          have hd := entryGood_decode st id e hg hE
          exact goodState_putState_asset st id _ hg hd.1 hd.2
  | opAddDamage id description cost =>
      cases hE : getState st id with
      | none =>
          simp only [runOp, createAssetDamage, hE] at hr
          cases hr
      | some e =>
          simp only [runOp, createAssetDamage, hE] at hr
          have hde := entryGood_decode st id e hg hE
          by_cases hlt : (decodeAsset e).appraisedValue <
              damagesTotal (damagesAppend (decodeAsset e).damages ⟨description, cost⟩)
          · rw [if_pos hlt, Except.ok.injEq] at hr
            subst hr
            exact all_delState _ st id hg
          · rw [if_neg hlt, Except.ok.injEq] at hr
            subst hr
            refine goodState_putState_asset st id _ hg ?_ (not_lt.mp hlt)
            intro d hd
            rw [damagesList_append, List.mem_append] at hd
            cases hd with
            | inl hd => exact hde.1 d hd
            | inr hd =>
                rw [List.mem_singleton] at hd
                subst hd
                exact hv
  | opRepair id mechanic =>
      cases hE : getState st id with
      | none =>
          simp only [runOp, repairDamages, hE] at hr
          cases hr
      | some e =>
          simp only [runOp, repairDamages, hE] at hr
          cases hEo : getState st (decodeAsset e).ownerID with
          | none =>
              simp only [hEo] at hr
              cases hr
          | some eo =>
              simp only [hEo] at hr
              cases hEm : getState st mechanic with
              | none =>
                  simp only [hEm] at hr
                  cases hr
              | some em =>
                  simp only [hEm] at hr
                  have hde := entryGood_decode st id e hg hE
                  by_cases hlt : (decodeUser eo).money < damagesTotal (decodeAsset e).damages
                  · rw [if_pos hlt] at hr
                    cases hr
                  · rw [if_neg hlt, Except.ok.injEq] at hr
                    subst hr
                    apply goodState_putState_asset
                    · apply goodState_putState_user
                      apply goodState_putState_user _ _ _ hg
                    · intro d hd
                      simp [damagesList] at hd
                    · exact le_trans (costSum_nonneg _ hde.1) hde.2
  | opTransfer id newOwner w =>
      cases hE : getState st id with
      | none =>
          simp only [runOp, transferAsset, hE] at hr
          cases hr
      | some e =>
          simp only [runOp, transferAsset, hE] at hr
          by_cases hne : (decodeAsset e).ownerID = newOwner
          · rw [if_pos hne] at hr
            cases hr
          · rw [if_neg hne] at hr
            cases hEo : getState st (decodeAsset e).ownerID with
            | none =>
                simp only [hEo] at hr
                cases hr
            | some eo =>
                simp only [hEo] at hr
                cases hEn : getState st newOwner with
                | none =>
                    simp only [hEn] at hr
                    cases hr
                | some en =>
                    simp only [hEn] at hr
                    have hde := entryGood_decode st id e hg hE
                    have hfin : ∀ p : ℚ,
                        transferFinish st id newOwner (decodeUser eo) (decodeUser en)
                          { decodeAsset e with ownerID := newOwner } p = .ok st' →
                        goodState st' = true := by
                      intro p hfp
                      rw [transferFinish] at hfp
                      by_cases hlt : (decodeUser en).money < p
                      · rw [if_pos hlt] at hfp
                        cases hfp
                      · rw [if_neg hlt, Except.ok.injEq] at hfp
                        subst hfp
                        apply goodState_putState_asset
                        · apply goodState_putState_user
                          apply goodState_putState_user _ _ _ hg
                        · exact hde.1
                        · exact hde.2
                    by_cases hlen : damagesLen (decodeAsset e).damages = 0
                    · rw [if_pos hlen] at hr
                      exact hfin _ hr
                    · rw [if_neg hlen] at hr
                      cases w with
                      | false => simp at hr
                      | true =>
                          rw [if_pos rfl] at hr
                          exact hfin _ hr

theorem reachableV_good (st : WorldState) (h : ReachableV st) : goodState st = true := by
  induction h with
  | seed => decide
  | step st op hre hv ih => exact goodState_step st op hv ih

/-- C10 (amended): in every world state reachable from the seeded
initial state through operations with non-negative damage costs AND
non-negative appraised values, every stored asset's damage total is at
most its appraised value, and every asset a transfer can read has a
non-negative settlement price (appraised value minus damage total).
The extra appraised-value restriction is what the counterexample forces:
`CreateAsset` accepts a negative appraised value, which immediately
violates the bound with an empty damage sequence. -/
theorem reachable_assets_bounded (st : WorldState) (h : ReachableV st) :
    assetsBounded st = true ∧
    ∀ (id : String) (a : Asset), readAsset st id = .ok a → 0 ≤ settlementPrice a := by
  have hg := reachableV_good st h
  have hca := goodState_split st hg
  refine ⟨hca.2, ?_⟩
  intro id a hra
  cases hE : getState st id with
  | none =>
      simp only [readAsset, hE] at hra
      cases hra
  | some e =>
      simp only [readAsset, hE, Except.ok.injEq] at hra
      subst hra
      have hbd := decodeAsset_total_bounds st id e hca.1 hca.2 hE
      exact sub_nonneg.mpr hbd.2

/-- Witness for C10: the seeded initial state is reachable and satisfies
the damage bound. -/
theorem reachable_assets_bounded_witness : assetsBounded seededState = true :=
  (reachable_assets_bounded seededState ReachableV.seed).1

/-- The seeded ledger after creating an asset with appraised value -1. -/
def stBadCreate : WorldState :=
  applyOp seededState (.opCreate "asset9" "vw" "golf" 2015 "red" "user1" (-1))

/-- Counterexample for C10 as stated: the claim's reachability notion
restricts only damage costs, so `CreateAsset` with appraised value -1 is
allowed; the resulting reachable state stores an asset whose damage
total (0) strictly exceeds its appraised value (-1), the bound predicate
is false, and the asset's settlement price is negative. -/
theorem negative_appraisal_escapes_bound :
    ReachableNN stBadCreate ∧
    getState stBadCreate "asset9" =
      some (.asset ⟨"asset9", "vw", "golf", 2015, "red", "user1", some [], -1⟩) ∧
    Asset.appraisedValue ⟨"asset9", "vw", "golf", 2015, "red", "user1", some [], -1⟩ <
      damagesTotal (Asset.damages ⟨"asset9", "vw", "golf", 2015, "red", "user1", some [], -1⟩) ∧
    assetsBounded stBadCreate = false ∧
    readAsset stBadCreate "asset9" =
      .ok ⟨"asset9", "vw", "golf", 2015, "red", "user1", some [], -1⟩ ∧
    settlementPrice ⟨"asset9", "vw", "golf", 2015, "red", "user1", some [], -1⟩ < 0 := by
  refine ⟨ReachableNN.step seededState _ ReachableNN.seed trivial, by decide, ?_, by decide,
    by rfl, ?_⟩
  · norm_num [damagesTotal, damagesList, costSum]
  · norm_num [settlementPrice, damagesTotal, damagesList, costSum]

/-- Fault oracle failing the put of key `"user2"` (the previous owner's
credit write in the transfer scenario below). -/
def faultPrevOwnerKey : String → Bool := fun k => k == "user2"

/-- Fault oracle failing the put of key `"user1"` (the owner's debit
write in the repair scenario below). -/
def faultOwnerKey : String → Bool := fun k => k == "user1"

/-- The seeded ledger with one damage of cost 100 recorded on `asset1`. -/
def stDamaged : WorldState :=
  [("asset1", .asset ⟨"asset1", "fiat", "500L", 2018, "black", "user1",
      some [⟨"dent", 100⟩], 7000⟩),
   ("user1", .user ⟨"user1", "Marko", "Markovic", "marko.markovic@email.com", 10000⟩),
   ("user2", .user ⟨"user2", "Jovan", "Jovanovic", "jovan.jovanovic@email.com", 5000⟩),
   ("user3", .user ⟨"user3", "Lazar", "Lazarevic", "lazar.lazarevic@email.com", 3750⟩)]

/-- C4, evaluated at the failing inputs: the Go code discards the error
returned by the first two of the three `PutState` calls in both
`TransferAsset` and `RepairDamages`.  With a store fault on the previous
owner's key, the transfer of `asset2` to `user1` still reports success
while `user2`'s 5000 credit write was silently lost (balance still
5000, not 10000); with a store fault on the owner's key, the repair of
`asset1` by `user3` still reports success while `user1`'s debit write
was silently lost (balance still 10000, not 9900) even though the
mechanic was credited 3850. -/
theorem dropped_put_errors_eval :
    faultPrevOwnerKey "user2" = true ∧
    (transferAssetF faultPrevOwnerKey seededState "asset2" "user1" false).isOk = true ∧
    (transferAssetF faultPrevOwnerKey seededState "asset2" "user1" false).toOption.bind
        (fun st => getState st "user2") =
      some (.user ⟨"user2", "Jovan", "Jovanovic", "jovan.jovanovic@email.com", 5000⟩) ∧
    faultOwnerKey "user1" = true ∧
    repairDamagesF faultOwnerKey stDamaged "asset1" "user3" =
      .ok [("asset1", .asset ⟨"asset1", "fiat", "500L", 2018, "black", "user1",
              some [], 7000⟩),
           ("user3", .user ⟨"user3", "Lazar", "Lazarevic", "lazar.lazarevic@email.com",
              3850⟩),
           ("user1", .user ⟨"user1", "Marko", "Markovic", "marko.markovic@email.com",
              10000⟩),
           ("user2", .user ⟨"user2", "Jovan", "Jovanovic", "jovan.jovanovic@email.com",
              5000⟩)] := by
  refine ⟨rfl, by decide, by decide, rfl, ?_⟩
  norm_num +decide [repairDamagesF, putStateChecked, putStateDrop, faultOwnerKey, stDamaged,
    getState, decodeAsset, decodeUser, damagesTotal, damagesList, costSum, putState]

end Chaincode
